import Mathlib

/-!
# Verification of the juper swap-api client core

Shallow embedding of `crates/juper_swap_api/src/api.rs`: URL construction,
the error-vs-success response discriminator, the transaction decode
pipeline and the route-map decompression algorithm, together with the
per-operation response-handling chains of the blocking and non-blocking
facade calls.

External collaborators (solana_sdk addresses, base64, bincode) and repo
modules whose sources are not available (`types.rs`, `slippage.rs`,
`error.rs`) are modelled from the spec where noted.
-/

namespace Juper

/-! ## Addresses

Modelled from the spec: an `Address` is a fixed-length binary identifier
(`solana_sdk::pubkey::Pubkey`, an external collaborator), round-trippable
to and from a canonical base58 text encoding.  We model the 32-byte value
as a natural number below `2 ^ 256` and the canonical encoding as
positional base58 over the standard alphabet. -/

def PK_MOD : Nat := 2 ^ 256

abbrev Pubkey := Fin PK_MOD

def mkPk (n : Nat) : Pubkey := ⟨n % PK_MOD, Nat.mod_lt n (by decide)⟩

/-- The base58 alphabet (the standard one used for solana addresses). -/
def ALPHABET : List Char :=
  "123456789ABCDEFGHJKLMNPQRSTUVWXYZabcdefghijkmnopqrstuvwxyz".toList

def DIGITS : List Char := "0123456789".toList

/-- Fuelled little-endian digit expansion (kernel-computable). -/
def natDigitsAux (b : Nat) : Nat → Nat → List Nat
  | 0, _ => []
  | _ + 1, 0 => []
  | fuel + 1, n + 1 => (n + 1) % b :: natDigitsAux b fuel ((n + 1) / b)

/-- Little-endian base-`b` digits of `n`. -/
def natDigits (b n : Nat) : List Nat := natDigitsAux b n n

/-- Decimal rendering of a natural number, as the Rust `Display` of `u64`. -/
def natChars (n : Nat) : List Char :=
  if n = 0 then ['0'] else ((natDigits 10 n).map (fun d => DIGITS.getD d '0')).reverse

def natStr (n : Nat) : String := ⟨natChars n⟩

def encodeDigit58 (d : Nat) : Char := ALPHABET.getD d '1'

def decodeDigit58 (c : Char) : Option Nat :=
  if c ∈ ALPHABET then some (ALPHABET.indexOf c) else none

/-- Canonical text encoding of an address (base58 of the underlying value). -/
def pubkeyChars (p : Pubkey) : List Char :=
  if p.val = 0 then ['1'] else ((natDigits 58 p.val).map encodeDigit58).reverse

def pubkeyToString (p : Pubkey) : String := ⟨pubkeyChars p⟩

def decodeDigits58 : List Char → Option (List Nat)
  | [] => some []
  | c :: rest =>
    match decodeDigit58 c with
    | none => none
    | some d => (decodeDigits58 rest).map (d :: ·)

/-- `Pubkey::from_str`: base58-decode, failing on an invalid character,
an empty string, or a value that does not fit the fixed length. -/
def parsePubkey (s : String) : Option Pubkey :=
  if s.data = [] then none
  else
    match decodeDigits58 s.data with
    | none => none
    | some ds =>
      let n := Nat.ofDigits 58 ds.reverse
      if h : n < PK_MOD then some ⟨n, h⟩ else none

/-! ## JSON values and the error model -/

/-- A decoded JSON document (`serde_json::Value`). -/
inductive JsonValue where
  | null
  | bool (b : Bool)
  | num (n : Int)
  | str (s : String)
  | arr (elems : List JsonValue)
  | obj (fields : List (String × JsonValue))

def lookupField : List (String × JsonValue) → String → Option JsonValue
  | [], _ => none
  | (k, v) :: rest, key => if k = key then some v else lookupField rest key

def jStr : JsonValue → Option String
  | .str s => some s
  | _ => none

def jNat : JsonValue → Option Nat
  | .num (Int.ofNat n) => some n
  | _ => none

/-- Error kinds surfaced by the facade (spec §7). -/
inductive JupErr where
  | transport
  | jsonParse
  | shapeDecode
  | service (msg : String)
  | addrParse
  | base64Err
  | bincodeErr
deriving DecidableEq

/-- The observable result of the post-transport part of a call: a value,
a returned error, or a Rust panic (abort). -/
inductive Outcome (α : Type) where
  | ok (a : α)
  | err (e : JupErr)
  | panic
deriving DecidableEq

/-! ## Endpoint resolver (api.rs lines 123-179) -/

/-- The `API` version enum (`API::V1 | V2 | V3`). -/
inductive API where
  | v1
  | v2
  | v3

def route_map_str (api : API) (direct : Bool) : String :=
  match api with
  | .v1 | .v2 | .v3 =>
    if direct then "https://quote-api.jup.ag/v1/indexed-route-map?onlyDirectRoutes=true"
    else "https://quote-api.jup.ag/v1/indexed-route-map?onlyDirectRoutes=false"

def swap_str (api : API) : String :=
  match api with
  | .v1 | .v2 | .v3 => "https://quote-api.jup.ag/v1/swap"

/-- Modelled from the spec: slippage is one of a small closed set of
encodings (a percentage or a basis-points value), each variant producing
its own query fragment (`crate::slippage::Slippage`, source file not
under src/). -/
inductive Slippage where
  | percent (n : Nat)
  | bps (n : Nat)

def Slippage.value : Slippage → String
  | .percent n => "slippage=" ++ natStr n
  | .bps n => "slippageBps=" ++ natStr n

/-- Modelled from the spec: the optional platform-fee encoding produces
its own query fragment, empty when absent (`crate::slippage::FeeBps`,
source file not under src/). -/
structure FeeBps where
  bps : Option Nat

def FeeBps.value (f : FeeBps) : String :=
  match f.bps with
  | none => ""
  | some n => "&feeBps=" ++ natStr n

def boolStr : Bool → String
  | true => "true"
  | false => "false"

/-- `quote_str` (api.rs lines 148-166): the quote URL format string. -/
def quote_str (_api : API) (input_mint output_mint : Pubkey) (amount : Nat)
    (only_direct_routes : Bool) (slippage : Slippage) (fee_bps : FeeBps) : String :=
  "https://quote-api.jup.ag/v1/quote?inputMint=" ++ pubkeyToString input_mint ++
    "&outputMint=" ++ pubkeyToString output_mint ++
    "&amount=" ++ natStr amount ++
    "&onlyDirectRoutes=" ++ boolStr only_direct_routes ++
    "&" ++ slippage.value ++ fee_bps.value

/-- Modelled from the spec: the price request's optional `uiAmount` is a
float used only through its decimal rendering in the URL; we model the
value by its rendered character sequence. -/
structure F64 where
  chars : List Char

def F64.render (v : F64) : String := ⟨v.chars⟩

def floatChars : List Char := "0123456789.-".toList

/-- A well-formed float rendering: nonempty, digits, dot and minus only. -/
def F64.wf (v : F64) : Prop := v.chars ≠ [] ∧ ∀ c ∈ v.chars, c ∈ floatChars

instance (v : F64) : Decidable v.wf := by
  unfold F64.wf
  infer_instance

/-- `price_str` (api.rs lines 168-179). -/
def price_str (_api : API) (input_mint output_mint : Pubkey) (ui_amount : Option F64) : String :=
  "https://quote-api.jup.ag/v1/price?id=" ++ pubkeyToString input_mint ++
    "&vsToken=" ++ pubkeyToString output_mint ++
    (match ui_amount with
     | some v => "&amount=" ++ v.render
     | none => "")

/-! ## Swap request construction and the transaction decode pipeline -/

/-- Modelled from the spec: a `Quote` is an opaque service-defined JSON
value passed back verbatim (`crate::Quote`, source not under src/). -/
def Quote := JsonValue

/-- Modelled from the spec: caller-supplied swap options
(`crate::types::SwapConfig`, source not under src/). -/
structure SwapConfig where
  wrapUnwrapSol : Bool
  feeAccount : Option Pubkey
  tokenLedger : Option Pubkey

/-- Modelled from the spec: the wire body for the swap endpoint
(`crate::SwapRequest`, source not under src/); field use mirrors
`process_swap_input`. -/
structure SwapRequest where
  route : Quote
  wrapUnwrapSOL : Bool
  feeAccount : Option String
  tokenLedger : Option String
  userPublicKey : Pubkey

/-- `process_swap_input` (api.rs lines 291-307). -/
def process_swap_input (api : API) (route : Quote) (user_public_key : Pubkey)
    (swap_config : SwapConfig) : String × SwapRequest :=
  (swap_str api,
    { route := route
      wrapUnwrapSOL := swap_config.wrapUnwrapSol
      feeAccount := swap_config.feeAccount.map pubkeyToString
      tokenLedger := swap_config.tokenLedger.map pubkeyToString
      userPublicKey := user_public_key })

/-- Modelled from the spec: a decoded transaction is a structured object
whose internals are consumed outside this core; we keep its byte payload.
(`solana_sdk` transaction, external collaborator.) -/
structure Transaction where
  bytes : List Nat
deriving DecidableEq

/-- Modelled from the spec: binary deserialization of a transaction
(bincode, external collaborator); the structure of the payload is out of
scope for this core, so deserialization is payload-preserving. -/
def bincodeTx (bs : List Nat) : Option Transaction := some ⟨bs⟩

def B64CHARS : List Char :=
  "ABCDEFGHIJKLMNOPQRSTUVWXYZabcdefghijklmnopqrstuvwxyz0123456789+/".toList

def b64Val (c : Char) : Option Nat :=
  if c ∈ B64CHARS then some (B64CHARS.indexOf c) else none

/-- Standard base64 decoding of 4-character groups (the `base64` crate,
external collaborator). -/
def base64DecodeGo : List Char → Option (List Nat)
  | [] => some []
  | c1 :: c2 :: c3 :: c4 :: rest =>
    match b64Val c1, b64Val c2 with
    | some v1, some v2 =>
      if c3 = '=' ∧ c4 = '=' ∧ rest = [] then
        some [v1 * 4 + v2 / 16]
      else if c4 = '=' ∧ rest = [] then
        match b64Val c3 with
        | some v3 => some [v1 * 4 + v2 / 16, v2 % 16 * 16 + v3 / 4]
        | none => none
      else
        match b64Val c3, b64Val c4, base64DecodeGo rest with
        | some v3, some v4, some bs =>
          some ((v1 * 4 + v2 / 16) :: (v2 % 16 * 16 + v3 / 4) :: (v3 % 4 * 64 + v4) :: bs)
        | _, _, _ => none
    | _, _ => none
  | _ => none

def base64Decode (s : String) : Option (List Nat) := base64DecodeGo s.data

/-- The stage decoder inside `process_swap_response` (api.rs lines
310-312): base64-decode then binary-deserialize, with distinct error
kinds for the two stages. -/
def decodeStage (base64_transaction : String) : Except JupErr Transaction :=
  match base64Decode base64_transaction with
  | none => .error .base64Err
  | some bs =>
    match bincodeTx bs with
    | none => .error .bincodeErr
    | some t => .ok t

/-- Modelled from the spec: the swap wire response, with optional setup
and cleanup blobs and a mandatory swap blob
(`crate::types::SwapResponse`, source not under src/). -/
structure SwapResponse where
  setupTransaction : Option String
  swapTransaction : String
  cleanupTransaction : Option String
deriving DecidableEq

/-- The decoded swap bundle (`crate::types::Swap`, shape fixed by
`process_swap_response`). -/
structure Swap where
  setup : Option Transaction
  swap : Transaction
  cleanup : Option Transaction
deriving DecidableEq

/-- `process_swap_response` (api.rs lines 309-319): decode setup, swap and
cleanup in struct-literal order, `transpose`-ing the optional stages. -/
def process_swap_response (response : SwapResponse) : Except JupErr Swap :=
  match (match response.setupTransaction with
         | none => Except.ok none
         | some s => (decodeStage s).map some) with
  | .error e => .error e
  | .ok setup =>
    match decodeStage response.swapTransaction with
    | .error e => .error e
    | .ok sw =>
      match (match response.cleanupTransaction with
             | none => Except.ok none
             | some s => (decodeStage s).map some) with
      | .error e => .error e
      | .ok cleanup => .ok ⟨setup, sw, cleanup⟩

/-! ## Route-map decompression (api.rs lines 320-338) -/

/-- The wire format: an index-addressable array of address strings and a
map from source index to destination indices
(`crate::types::IndexedRouteMap`, shape from the spec and its use in
`process_route_map_response`). -/
structure IndexedRouteMap where
  mintKeys : List String
  indexedRouteMap : List (Nat × List Nat)
deriving DecidableEq

/-- The domain result: a mapping from source address to ordered
destination addresses, built by insertion in wire order. -/
abbrev RouteMap := List (Pubkey × List Pubkey)

/-- `HashMap::insert`: replace the value under an existing key, append a
fresh key. -/
def insertAssoc (kv : Pubkey × List Pubkey) : RouteMap → RouteMap
  | [] => [kv]
  | e :: rest => if e.1 = kv.1 then kv :: rest else e :: insertAssoc kv rest

def lookupAssoc (k : Pubkey) : RouteMap → Option (List Pubkey)
  | [] => none
  | e :: rest => if e.1 = k then some e.2 else lookupAssoc k rest

/-- The `collect::<anyhow::Result<Vec<Pubkey>>>()` over parsed mint keys:
short-circuits at the first unparseable entry. -/
def parseAll : List String → Option (List Pubkey)
  | [] => some []
  | s :: rest =>
    match parsePubkey s with
    | none => none
    | some p => (parseAll rest).map (p :: ·)

def mapOpt {α β : Type} (f : α → Option β) : List α → Option (List β)
  | [] => some []
  | a :: rest =>
    match f a with
    | none => none
    | some b => (mapOpt f rest).map (b :: ·)

/-- One loop iteration body: `mint_keys[from_index]` and
`to_indices.map(|i| mint_keys[i])`; `none` is the out-of-bounds panic. -/
def resolveEntry (keys : List Pubkey) (e : Nat × List Nat) :
    Option (Pubkey × List Pubkey) :=
  match keys.get? e.1 with
  | none => none
  | some k => (mapOpt (fun i => keys.get? i) e.2).map (fun ds => (k, ds))

def decompressEntries (keys : List Pubkey) :
    List (Nat × List Nat) → RouteMap → Outcome RouteMap
  | [], acc => .ok acc
  | e :: rest, acc =>
    match resolveEntry keys e with
    | none => .panic
    | some kv => decompressEntries keys rest (insertAssoc kv acc)

/-- `process_route_map_response` (api.rs lines 320-338): parse every mint
key (first failure aborts with an address-parse error), then resolve each
indexed entry by raw indexing — an out-of-range index panics. -/
def process_route_map_response (response : IndexedRouteMap) : Outcome RouteMap :=
  match parseAll response.mintKeys with
  | none => .err .addrParse
  | some mint_keys => decompressEntries mint_keys response.indexedRouteMap []

/-- Modelled from the spec (§8 round-trip): re-index a RouteMap
consistently into an IndexedRouteMap — collect the addresses into a key
array and replace every address by its index (the inverse transform of
the decompressor). -/
def allPubkeys (rm : RouteMap) : List Pubkey :=
  (rm.map Prod.fst ++ rm.flatMap Prod.snd).dedup

def compressRouteMap (rm : RouteMap) : IndexedRouteMap :=
  ⟨(allPubkeys rm).map pubkeyToString,
   rm.map (fun e =>
     ((allPubkeys rm).indexOf e.1, e.2.map (fun d => (allPubkeys rm).indexOf d)))⟩

/-! ## Response discriminator and per-operation handlers -/

/-- The error-indicator field of an envelope: an `error` field holding a
string. -/
def errorField : JsonValue → Option String
  | .obj fs => (lookupField fs "error").bind jStr
  | _ => none

/-- Modelled from the spec: the response discriminator
(`crate::error::maybe_jupiter_api_error`, source file not under src/): an
error envelope is recognized by its error-indicator field before any
attempt to deserialize the success type; otherwise the payload is
deserialized as `T`, a shape mismatch being a decode error. -/
def maybe_jupiter_api_error {T : Type} (decodeT : JsonValue → Option T)
    (value : JsonValue) : Except JupErr T :=
  match errorField value with
  | some msg => .error (.service msg)
  | none =>
    match decodeT value with
    | some t => .ok t
    | none => .error .shapeDecode

/-- Modelled from the spec: the generic success envelope `Response<T>`
wrapping a `data` payload (`crate::Response`, source not under src/). -/
structure JupResponse (T : Type) where
  data : T

def decodeResponseWith {T : Type} (decodeT : JsonValue → Option T) :
    JsonValue → Option (JupResponse T)
  | .obj fs =>
    match lookupField fs "data" with
    | none => none
    | some j => (decodeT j).map (fun t => ⟨t⟩)
  | _ => none

def decodeJsonArr : JsonValue → Option (List JsonValue)
  | .arr xs => some xs
  | _ => none

/-- Modelled from the spec: `Price` carries the input/output mint and a
unit value, decoded with light field validation (`crate::types::Price`,
source not under src/). -/
structure Price where
  inputMint : String
  outputMint : String
  unitValue : Int

def jInt : JsonValue → Option Int
  | .num n => some n
  | _ => none

def decodePriceJson : JsonValue → Option Price
  | .obj fs =>
    match lookupField fs "inputMint", lookupField fs "outputMint",
        lookupField fs "unitValue" with
    | some i, some o, some v =>
      match jStr i, jStr o, jInt v with
      | some si, some so, some n => some ⟨si, so, n⟩
      | _, _, _ => none
    | _, _, _ => none
  | _ => none

/-- An optional string field: absent is fine, present-but-not-a-string is
a shape error (serde semantics for `Option<String>`). -/
def optStrField (fs : List (String × JsonValue)) (key : String) :
    Option (Option String) :=
  match lookupField fs key with
  | none => some none
  | some j => (jStr j).map some

/-- Modelled from the spec: serde decoding of `SwapResponse` — optional
`setupTransaction` and `cleanupTransaction`, mandatory `swapTransaction`
(`crate::types::SwapResponse`, source not under src/). -/
def decodeSwapResponseJson : JsonValue → Option SwapResponse
  | .obj fs =>
    match optStrField fs "setupTransaction", lookupField fs "swapTransaction",
        optStrField fs "cleanupTransaction" with
    | some setup, some sj, some cleanup =>
      (jStr sj).map (fun sw => ⟨setup, sw, cleanup⟩)
    | _, _, _ => none
  | _ => none

/-- Decoding of the indexed route map wire JSON (serde shape of
`IndexedRouteMap`): `mintKeys` array of strings, `indexedRouteMap` object
with numeric-string keys and arrays of numbers. -/
def jNatList : JsonValue → Option (List Nat)
  | .arr xs => mapOpt jNat xs
  | _ => none

def decDigit (c : Char) : Option Nat :=
  if c ∈ DIGITS then some (DIGITS.indexOf c) else none

def natParse (s : String) : Option Nat :=
  match s.data with
  | [] => none
  | cs => (mapOpt decDigit cs).map (fun ds => Nat.ofDigits 10 ds.reverse)

def jIrmEntries : JsonValue → Option (List (Nat × List Nat))
  | .obj fs =>
    mapOpt (fun kv =>
      match natParse kv.1, jNatList kv.2 with
      | some k, some v => some (k, v)
      | _, _ => none) fs
  | _ => none

def decodeIndexedRouteMapJson : JsonValue → Option IndexedRouteMap
  | .obj fs =>
    match lookupField fs "mintKeys", lookupField fs "indexedRouteMap" with
    | some mk, some irm =>
      match (match mk with
             | .arr xs => mapOpt jStr xs
             | _ => none), jIrmEntries irm with
      | some keys, some entries => some ⟨keys, entries⟩
      | _, _ => none
    | _, _ => none
  | _ => none

/-- An HTTP response as seen after `send()` succeeded: a status code and
a body, `none` standing for a body that is not valid JSON. -/
structure HttpResp where
  status : Nat
  body : Option JsonValue

/-- `reqwest::Response::error_for_status`: errors exactly on 4xx/5xx. -/
def errorForStatus (status : Nat) : Bool :=
  decide (400 ≤ status) && decide (status ≤ 599)

/-- The post-transport chain of blocking `swap` (api.rs lines 187-196):
`error_for_status` then JSON parse, discriminate, decode transactions. -/
def swap_handle (r : HttpResp) : Outcome Swap :=
  if errorForStatus r.status then .err .transport
  else
    match r.body with
    | none => .err .jsonParse
    | some j =>
      match maybe_jupiter_api_error decodeSwapResponseJson j with
      | .error e => .err e
      | .ok resp =>
        match process_swap_response resp with
        | .error e => .err e
        | .ok sw => .ok sw

/-- The post-transport chain of `async_swap` (api.rs lines 204-216): the
same stages as the blocking call. -/
def async_swap_handle (r : HttpResp) : Outcome Swap :=
  if errorForStatus r.status then .err .transport
  else
    match r.body with
    | none => .err .jsonParse
    | some j =>
      match maybe_jupiter_api_error decodeSwapResponseJson j with
      | .error e => .err e
      | .ok resp =>
        match process_swap_response resp with
        | .error e => .err e
        | .ok sw => .ok sw

/-- The post-transport chain of blocking `quote` (api.rs line 245): JSON
parse then discriminate into `Response<Vec<Quote>>`; the status is never
inspected. -/
def quote_handle (r : HttpResp) : Outcome (JupResponse (List Quote)) :=
  match r.body with
  | none => .err .jsonParse
  | some j =>
    match maybe_jupiter_api_error (decodeResponseWith decodeJsonArr) j with
    | .error e => .err e
    | .ok t => .ok t

/-- The post-transport chain of `async_quote` (api.rs lines 264-266). -/
def async_quote_handle (r : HttpResp) : Outcome (JupResponse (List Quote)) :=
  match r.body with
  | none => .err .jsonParse
  | some j =>
    match maybe_jupiter_api_error (decodeResponseWith decodeJsonArr) j with
    | .error e => .err e
    | .ok t => .ok t

/-- The post-transport chain of blocking `price` (api.rs line 275). -/
def price_handle (r : HttpResp) : Outcome (JupResponse Price) :=
  match r.body with
  | none => .err .jsonParse
  | some j =>
    match maybe_jupiter_api_error (decodeResponseWith decodePriceJson) j with
    | .error e => .err e
    | .ok t => .ok t

/-- The post-transport chain of `async_price` (api.rs lines 284-286). -/
def async_price_handle (r : HttpResp) : Outcome (JupResponse Price) :=
  match r.body with
  | none => .err .jsonParse
  | some j =>
    match maybe_jupiter_api_error (decodeResponseWith decodePriceJson) j with
    | .error e => .err e
    | .ok t => .ok t

/-- The post-transport chain of blocking `route_map` (api.rs lines
218-222): the body is deserialized directly as `IndexedRouteMap` — the
discriminator is never consulted — then decompressed. -/
def route_map_handle (r : HttpResp) : Outcome RouteMap :=
  match r.body with
  | none => .err .jsonParse
  | some j =>
    match decodeIndexedRouteMapJson j with
    | none => .err .shapeDecode
    | some irm => process_route_map_response irm

/-- The post-transport chain of `async_route_map` (api.rs lines 223-227):
identical to the blocking chain. -/
def async_route_map_handle (r : HttpResp) : Outcome RouteMap :=
  match r.body with
  | none => .err .jsonParse
  | some j =>
    match decodeIndexedRouteMapJson j with
    | none => .err .shapeDecode
    | some irm => process_route_map_response irm

/-! ## Transport client selection

Which client expression each operation evaluates (api.rs lines 15-18,
28-33 and the call sites): `self.client()` clones the lazily-initialized
process-wide `REQ_CLIENT`, `self.async_client()` clones
`ASYNC_REQ_CLIENT`, and `reqwest::get` builds a fresh client for that one
call. -/

inductive ClientSource where
  | sharedBlocking
  | sharedAsync
  | freshPerCall
deriving DecidableEq

def swap_client : ClientSource := .sharedBlocking

def async_swap_client : ClientSource := .sharedAsync

def quote_client : ClientSource := .sharedBlocking

def async_quote_client : ClientSource := .sharedAsync

def price_client : ClientSource := .sharedBlocking

def async_price_client : ClientSource := .sharedAsync

def route_map_client : ClientSource := .sharedBlocking

/-- `async_route_map` performs `reqwest::get(url)`, which constructs a
fresh client for the call (api.rs line 225). -/
def async_route_map_client : ClientSource := .freshPerCall

/-- URL built by blocking `route_map` (api.rs line 219). -/
def route_map_url (api : API) (direct : Bool) : String := route_map_str api direct

/-- URL built by `async_route_map` (api.rs line 224). -/
def async_route_map_url (api : API) (direct : Bool) : String := route_map_str api direct

def quote_url (api : API) (i o : Pubkey) (amount : Nat) (direct : Bool)
    (sl : Slippage) (fee : FeeBps) : String :=
  quote_str api i o amount direct sl fee

def async_quote_url (api : API) (i o : Pubkey) (amount : Nat) (direct : Bool)
    (sl : Slippage) (fee : FeeBps) : String :=
  quote_str api i o amount direct sl fee

def price_url (api : API) (i o : Pubkey) (ui : Option F64) : String :=
  price_str api i o ui

def async_price_url (api : API) (i o : Pubkey) (ui : Option F64) : String :=
  price_str api i o ui

def swap_input (api : API) (route : Quote) (user : Pubkey) (cfg : SwapConfig) :
    String × SwapRequest :=
  process_swap_input api route user cfg

def async_swap_input (api : API) (route : Quote) (user : Pubkey) (cfg : SwapConfig) :
    String × SwapRequest :=
  process_swap_input api route user cfg

/-! ## Base58 canonical-encoding facts -/

theorem natDigitsAux_eq (b : Nat) (hb : 2 ≤ b) :
    ∀ fuel n, n ≤ fuel → natDigitsAux b fuel n = Nat.digits b n
  | 0, 0, _ => by simp [natDigitsAux]
  | 0, n + 1, h => absurd h (by omega)
  | fuel + 1, 0, _ => by simp [natDigitsAux]
  | fuel + 1, n + 1, h => by
    rw [natDigitsAux, Nat.digits_def' (by omega : 1 < b) (Nat.succ_pos n)]
    congr 1
    have hlt : (n + 1) / b < n + 1 := Nat.div_lt_self (Nat.succ_pos n) (by omega)
    exact natDigitsAux_eq b hb fuel ((n + 1) / b) (by omega)

theorem natDigits_eq {b n : Nat} (hb : 2 ≤ b) : natDigits b n = Nat.digits b n :=
  natDigitsAux_eq b hb n n le_rfl

theorem natDigits_lt {b n : Nat} (hb : 2 ≤ b) : ∀ d ∈ natDigits b n, d < b := by
  rw [natDigits_eq hb]
  exact fun d hd => Nat.digits_lt_base hb hd

theorem decodeDigit58_encodeDigit58 : ∀ d, d < 58 → decodeDigit58 (encodeDigit58 d) = some d := by
  decide

theorem decodeDigits58_map_encode {ds : List Nat} (h : ∀ d ∈ ds, d < 58) :
    decodeDigits58 (ds.map encodeDigit58) = some ds := by
  induction ds with
  | nil => rfl
  | cons d rest ih =>
    have hd : decodeDigit58 (encodeDigit58 d) = some d :=
      decodeDigit58_encodeDigit58 d (h d (List.mem_cons_self d rest))
    have hrest : decodeDigits58 (rest.map encodeDigit58) = some rest :=
      ih (fun x hx => h x (List.mem_cons_of_mem d hx))
    simp [decodeDigits58, hd, hrest]

/-- Round-trip: parsing the canonical text encoding of an address yields
the address back. -/
theorem parsePubkey_toString (p : Pubkey) : parsePubkey (pubkeyToString p) = some p := by
  by_cases h0 : p.val = 0
  · have hp : p = ⟨0, by decide⟩ := Fin.ext h0
    subst hp
    decide
  · unfold parsePubkey pubkeyToString pubkeyChars
    simp only [if_neg h0]
    have hne : natDigits 58 p.val ≠ [] := by
      rw [natDigits_eq (by norm_num)]
      simpa [Nat.digits_ne_nil_iff_ne_zero] using h0
    have hswap : ((natDigits 58 p.val).map encodeDigit58).reverse
        = ((natDigits 58 p.val).reverse).map encodeDigit58 := by
      simp
    rw [hswap]
    have hnil : ((natDigits 58 p.val).reverse).map encodeDigit58 ≠ [] := by
      simp [hne]
    rw [if_neg hnil]
    have hdec : decodeDigits58 (((natDigits 58 p.val).reverse).map encodeDigit58)
        = some ((natDigits 58 p.val).reverse) :=
      decodeDigits58_map_encode (fun d hd =>
        natDigits_lt (by norm_num) d (List.mem_reverse.mp hd))
    rw [hdec]
    simp only [List.reverse_reverse]
    have hof : Nat.ofDigits 58 (natDigits 58 p.val) = p.val := by
      rw [natDigits_eq (by norm_num)]
      exact_mod_cast Nat.ofDigits_digits 58 p.val
    rw [dif_pos (show Nat.ofDigits 58 (natDigits 58 p.val) < PK_MOD by rw [hof]; exact p.isLt)]
    exact congrArg some (Fin.ext hof)

theorem parseAll_map_toString (l : List Pubkey) :
    parseAll (l.map pubkeyToString) = some l := by
  induction l with
  | nil => rfl
  | cons p rest ih => simp [parseAll, parsePubkey_toString, ih]

/-! ## Route-map decompression: supporting lemmas -/

theorem parseAll_length : ∀ {ss : List String} {ks : List Pubkey},
    parseAll ss = some ks → ks.length = ss.length := by
  intro ss
  induction ss with
  | nil => intro ks h; simp [parseAll] at h; simp [← h]
  | cons s rest ih =>
    intro ks h
    unfold parseAll at h
    cases hp : parsePubkey s with
    | none => rw [hp] at h; exact absurd h (by simp)
    | some p =>
      rw [hp] at h
      cases hr : parseAll rest with
      | none => rw [hr] at h; exact absurd h (by simp)
      | some ks' =>
        rw [hr] at h
        simp only [Option.map_some'] at h
        obtain rfl : p :: ks' = ks := Option.some_injective _ h
        simp [ih hr]

theorem parseAll_none {ss : List String} {s : String}
    (hs : s ∈ ss) (hbad : parsePubkey s = none) : parseAll ss = none := by
  induction ss with
  | nil => exact absurd hs (List.not_mem_nil s)
  | cons t rest ih =>
    rcases List.mem_cons.mp hs with rfl | h'
    · simp [parseAll, hbad]
    · unfold parseAll
      cases hp : parsePubkey t with
      | none => rfl
      | some p => simp [ih h']

theorem mapOpt_none {α β : Type} (f : α → Option β) {l : List α} {a : α}
    (ha : a ∈ l) (hbad : f a = none) : mapOpt f l = none := by
  induction l with
  | nil => exact absurd ha (List.not_mem_nil a)
  | cons b rest ih =>
    rcases List.mem_cons.mp ha with rfl | h'
    · simp [mapOpt, hbad]
    · unfold mapOpt
      cases hb : f b with
      | none => rfl
      | some v => simp [ih h']

theorem resolveEntry_none {keys : List Pubkey} {e : Nat × List Nat}
    (h : keys.length ≤ e.1 ∨ ∃ i ∈ e.2, keys.length ≤ i) :
    resolveEntry keys e = none := by
  unfold resolveEntry
  rcases h with hfrom | ⟨i, hi, hoob⟩
  · rw [List.get?_eq_none.mpr hfrom]
  · cases hk : keys.get? e.1 with
    | none => rfl
    | some k =>
      rw [mapOpt_none _ hi (List.get?_eq_none.mpr hoob)]
      rfl

theorem decompressEntries_panic {keys : List Pubkey} :
    ∀ (es : List (Nat × List Nat)) (acc : RouteMap),
    (∃ e ∈ es, keys.length ≤ e.1 ∨ ∃ i ∈ e.2, keys.length ≤ i) →
    decompressEntries keys es acc = .panic := by
  intro es
  induction es with
  | nil => intro acc h; simp at h
  | cons e rest ih =>
    intro acc h
    rcases h with ⟨e', he', hbad⟩
    rcases List.mem_cons.mp he' with rfl | hmem
    · simp [decompressEntries, resolveEntry_none hbad]
    · unfold decompressEntries
      cases hre : resolveEntry keys e with
      | none => rfl
      | some kv => exact ih _ ⟨e', hmem, hbad⟩

/-- C1 (amended): when every mint key parses, an out-of-range source or
destination index makes decompression panic (Rust index out of bounds)
rather than return. -/
theorem route_map_oob_panics (r : IndexedRouteMap) (keys : List Pubkey)
    (hparse : parseAll r.mintKeys = some keys)
    (hoob : ∃ e ∈ r.indexedRouteMap,
      r.mintKeys.length ≤ e.1 ∨ ∃ i ∈ e.2, r.mintKeys.length ≤ i) :
    process_route_map_response r = .panic := by
  unfold process_route_map_response
  rw [hparse]
  have hlen := parseAll_length hparse
  apply decompressEntries_panic
  rw [hlen]
  exact hoob

/-- C1 witness: a concrete map whose one entry has an out-of-range
destination index panics. -/
theorem route_map_oob_panics_witness :
    (parseAll ["1", "2"] = some [mkPk 0, mkPk 1] ∧
      (∃ e ∈ ([(0, [7])] : List (Nat × List Nat)),
        (["1", "2"] : List String).length ≤ e.1 ∨
          ∃ i ∈ e.2, (["1", "2"] : List String).length ≤ i)) ∧
    process_route_map_response ⟨["1", "2"], [(0, [7])]⟩ = .panic :=
  ⟨⟨by decide, ⟨(0, [7]), by decide, by decide⟩⟩,
    route_map_oob_panics ⟨["1", "2"], [(0, [7])]⟩ [mkPk 0, mkPk 1] (by decide)
      ⟨(0, [7]), by decide, by decide⟩⟩

/-- C1 counterexample: on an IndexedRouteMap with an out-of-range source
index the decompressor panics (aborts); it does not return an
IndexOutOfRangeError decode failure (or any error value). -/
theorem route_map_oob_cex :
    process_route_map_response ⟨["1"], [(5, [])]⟩ = .panic ∧
      (∀ e : JupErr, (Outcome.panic : Outcome RouteMap) ≠ .err e) ∧
      (1 : Nat) ≤ 5 := by
  refine ⟨by decide, ?_, by decide⟩
  intro e h
  exact Outcome.noConfusion h

/-- C9: any unparseable mint-key entry fails the whole decompression with
an address-parse error — no partial RouteMap is produced. -/
theorem route_map_addr_parse (r : IndexedRouteMap)
    (h : ∃ s ∈ r.mintKeys, parsePubkey s = none) :
    process_route_map_response r = .err .addrParse := by
  obtain ⟨s, hs, hbad⟩ := h
  unfold process_route_map_response
  rw [parseAll_none hs hbad]

/-- C9 witness: `"0"` is not a base58 address ('0' is not in the
alphabet), so a map containing it fails wholesale even though its entry
list is resolvable. -/
theorem route_map_addr_parse_witness :
    (∃ s ∈ (["1", "0"] : List String), parsePubkey s = none) ∧
      process_route_map_response ⟨["1", "0"], [(0, [0])]⟩ = .err .addrParse :=
  ⟨⟨"0", by decide, by decide⟩,
    route_map_addr_parse ⟨["1", "0"], [(0, [0])]⟩ ⟨"0", by decide, by decide⟩⟩

/-! ## Key-set of the decompressed map (C10) -/

theorem keys_insertAssoc (kv : Pubkey × List Pubkey) (acc : RouteMap) (p : Pubkey) :
    p ∈ (insertAssoc kv acc).map Prod.fst ↔ p = kv.1 ∨ p ∈ acc.map Prod.fst := by
  induction acc with
  | nil => simp [insertAssoc]
  | cons e rest ih =>
    by_cases h : e.1 = kv.1
    · simp only [insertAssoc, if_pos h, List.map_cons, List.mem_cons]
      rw [← h]
      tauto
    · simp only [insertAssoc, if_neg h, List.map_cons, List.mem_cons, ih]
      tauto

theorem resolveEntry_some_src {keys : List Pubkey} {e : Nat × List Nat}
    {kv : Pubkey × List Pubkey} (h : resolveEntry keys e = some kv) :
    keys.get? e.1 = some kv.1 := by
  unfold resolveEntry at h
  cases hk : keys.get? e.1 with
  | none => rw [hk] at h; exact absurd h (by simp)
  | some k =>
    rw [hk] at h
    cases hm : mapOpt (fun i => keys.get? i) e.2 with
    | none => rw [hm] at h; exact absurd h (by simp)
    | some ds =>
      rw [hm] at h
      simp only [Option.map_some'] at h
      obtain rfl : (k, ds) = kv := Option.some_injective _ h
      rfl

theorem decompressEntries_ok_keys {keys : List Pubkey} :
    ∀ (es : List (Nat × List Nat)) (acc m : RouteMap),
    decompressEntries keys es acc = .ok m →
    ∀ p, p ∈ m.map Prod.fst ↔
      p ∈ acc.map Prod.fst ∨ ∃ e ∈ es, keys.get? e.1 = some p := by
  intro es
  induction es with
  | nil =>
    intro acc m h p
    simp only [decompressEntries, Outcome.ok.injEq] at h
    subst h
    simp
  | cons e rest ih =>
    intro acc m h p
    unfold decompressEntries at h
    cases hre : resolveEntry keys e with
    | none => rw [hre] at h; exact absurd h (by simp)
    | some kv =>
      rw [hre] at h
      have hsrc := resolveEntry_some_src hre
      rw [ih _ _ h p, keys_insertAssoc]
      constructor
      · rintro ((rfl | hacc) | ⟨e', he', hp⟩)
        · exact Or.inr ⟨e, List.mem_cons_self e rest, hsrc⟩
        · exact Or.inl hacc
        · exact Or.inr ⟨e', List.mem_cons_of_mem e he', hp⟩
      · rintro (hacc | ⟨e', he', hp⟩)
        · exact Or.inl (Or.inr hacc)
        · rcases List.mem_cons.mp he' with rfl | h'
          · rw [hsrc] at hp
            exact Or.inl (Or.inl (Option.some_injective _ hp).symm)
          · exact Or.inr ⟨e', h', hp⟩

/-- C10: the key set of a successfully decompressed RouteMap is exactly
the set of addresses at the source indices of the indexed entries; mint
keys without an entry never become keys. -/
theorem route_map_key_set (r : IndexedRouteMap) (keys : List Pubkey) (m : RouteMap)
    (hparse : parseAll r.mintKeys = some keys)
    (hok : process_route_map_response r = .ok m) :
    ∀ p, p ∈ m.map Prod.fst ↔ ∃ e ∈ r.indexedRouteMap, keys.get? e.1 = some p := by
  unfold process_route_map_response at hok
  rw [hparse] at hok
  intro p
  rw [decompressEntries_ok_keys _ _ _ hok p]
  simp

/-- C10 witness: mint keys `"2"`, `"3"` are parsed but absent from the
indexed entries, and indeed only the address of the one source index is a
key of the result. -/
theorem route_map_key_set_witness :
    (parseAll ["1", "2", "3"] = some [mkPk 0, mkPk 1, mkPk 2] ∧
      process_route_map_response ⟨["1", "2", "3"], [(0, [1])]⟩
        = .ok [(mkPk 0, [mkPk 1])]) ∧
    (mkPk 0 ∈ ([(mkPk 0, [mkPk 1])] : RouteMap).map Prod.fst ↔
      ∃ e ∈ ([(0, [1])] : List (Nat × List Nat)),
        ([mkPk 0, mkPk 1, mkPk 2] : List Pubkey).get? e.1 = some (mkPk 0)) :=
  ⟨⟨by decide, by decide⟩,
    route_map_key_set ⟨["1", "2", "3"], [(0, [1])]⟩ [mkPk 0, mkPk 1, mkPk 2]
      [(mkPk 0, [mkPk 1])] (by decide) (by decide) (mkPk 0)⟩

/-! ## Round-trip (C4) -/

theorem insertAssoc_not_mem {kv : Pubkey × List Pubkey} {acc : RouteMap}
    (h : kv.1 ∉ acc.map Prod.fst) : insertAssoc kv acc = acc ++ [kv] := by
  induction acc with
  | nil => rfl
  | cons e rest ih =>
    have hne : e.1 ≠ kv.1 := by
      intro he
      exact h (by simp [← he])
    simp only [insertAssoc, if_neg hne, List.cons_append, List.cons.injEq, true_and]
    exact ih (fun hm => h (by simp at hm ⊢; tauto))

theorem mapOpt_get_indexOf {pks : List Pubkey} {ds : List Pubkey}
    (hds : ∀ d ∈ ds, d ∈ pks) :
    mapOpt (fun i => pks.get? i) (ds.map (fun d => pks.indexOf d)) = some ds := by
  induction ds with
  | nil => rfl
  | cons d rest ih =>
    have hd := List.indexOf_get? (hds d (List.mem_cons_self d rest))
    simp only [List.map_cons, mapOpt, hd,
      ih (fun x hx => hds x (List.mem_cons_of_mem d hx)), Option.map_some']

theorem resolveEntry_compress {pks : List Pubkey} {k : Pubkey} {ds : List Pubkey}
    (hk : k ∈ pks) (hds : ∀ d ∈ ds, d ∈ pks) :
    resolveEntry pks (pks.indexOf k, ds.map (fun d => pks.indexOf d)) = some (k, ds) := by
  unfold resolveEntry
  simp only [List.indexOf_get? hk, mapOpt_get_indexOf hds, Option.map_some']

theorem decompressEntries_compress {pks : List Pubkey} :
    ∀ (es acc : RouteMap),
    (∀ e ∈ es, e.1 ∈ pks ∧ ∀ d ∈ e.2, d ∈ pks) →
    (es.map Prod.fst).Nodup →
    (∀ e ∈ es, e.1 ∉ acc.map Prod.fst) →
    decompressEntries pks
      (es.map (fun e => (pks.indexOf e.1, e.2.map (fun d => pks.indexOf d)))) acc
      = .ok (acc ++ es) := by
  intro es
  induction es with
  | nil => intro acc _ _ _; simp [decompressEntries]
  | cons e rest ih =>
    intro acc hmem hnd hdis
    have he := hmem e (List.mem_cons_self e rest)
    simp only [List.map_cons, decompressEntries, resolveEntry_compress he.1 he.2]
    rw [insertAssoc_not_mem (hdis e (List.mem_cons_self e rest))]
    have hnd' : (rest.map Prod.fst).Nodup := by
      simpa using hnd.of_cons
    have hhead : e.1 ∉ rest.map Prod.fst := by
      have := hnd
      simp only [List.map_cons, List.nodup_cons] at this
      exact this.1
    rw [ih (acc ++ [e])
      (fun x hx => hmem x (List.mem_cons_of_mem e hx)) hnd'
      (fun x hx => by
        simp only [List.map_append, List.mem_append, List.map_cons, List.map_nil,
          List.mem_singleton, not_or]
        exact ⟨hdis x (List.mem_cons_of_mem e hx),
          fun hxe => hhead (hxe ▸ List.mem_map_of_mem Prod.fst hx)⟩)]
    simp

/-- C4: decompressing an IndexedRouteMap built from a RouteMap by
consistent re-indexing reproduces the original key sequence and every
per-key destination sequence exactly. -/
theorem route_map_round_trip (rm : RouteMap) (hnd : (rm.map Prod.fst).Nodup) :
    ∃ m, process_route_map_response (compressRouteMap rm) = .ok m ∧
      m.map Prod.fst = rm.map Prod.fst ∧
      ∀ k, lookupAssoc k m = lookupAssoc k rm := by
  refine ⟨rm, ?_, rfl, fun k => rfl⟩
  unfold process_route_map_response compressRouteMap
  simp only
  rw [parseAll_map_toString (allPubkeys rm)]
  have hmem : ∀ e ∈ rm, e.1 ∈ allPubkeys rm ∧ ∀ d ∈ e.2, d ∈ allPubkeys rm := by
    intro e he
    constructor
    · exact List.mem_dedup.mpr
        (List.mem_append_left _ (List.mem_map_of_mem Prod.fst he))
    · intro d hd
      exact List.mem_dedup.mpr
        (List.mem_append_right _ (List.mem_flatMap.mpr ⟨e, he, hd⟩))
  simpa using decompressEntries_compress rm [] hmem hnd (by simp)

/-- C4 witness: a concrete two-key route map survives the compress /
decompress round trip. -/
theorem route_map_round_trip_witness :
    (([(mkPk 1, [mkPk 2]), (mkPk 2, [mkPk 1, mkPk 3])] : RouteMap).map
      Prod.fst).Nodup ∧
    ∃ m, process_route_map_response
        (compressRouteMap [(mkPk 1, [mkPk 2]), (mkPk 2, [mkPk 1, mkPk 3])])
        = .ok m ∧
      m.map Prod.fst
        = ([(mkPk 1, [mkPk 2]), (mkPk 2, [mkPk 1, mkPk 3])] : RouteMap).map Prod.fst ∧
      ∀ k, lookupAssoc k m
        = lookupAssoc k [(mkPk 1, [mkPk 2]), (mkPk 2, [mkPk 1, mkPk 3])] :=
  ⟨by decide, route_map_round_trip _ (by decide)⟩

/-! ## Transaction decode pipeline (C3) -/

/-- C3: a SwapResponse with absent setup and cleanup and a decodable swap
blob yields `setup = none`, `cleanup = none`, `swap` populated; and the
wire decoder rejects a JSON object with no `swapTransaction` field. -/
theorem process_swap_response_optional :
    (∀ (r : SwapResponse) (t : Transaction),
      r.setupTransaction = none → r.cleanupTransaction = none →
      decodeStage r.swapTransaction = .ok t →
      process_swap_response r = .ok ⟨none, t, none⟩) ∧
    (∀ fs : List (String × JsonValue),
      lookupField fs "swapTransaction" = none →
      decodeSwapResponseJson (.obj fs) = none) := by
  constructor
  · intro r t hsetup hcleanup hswap
    unfold process_swap_response
    rw [hsetup, hcleanup, hswap]
  · intro fs hmissing
    simp only [decodeSwapResponseJson, hmissing]
    cases optStrField fs "setupTransaction" <;>
      cases optStrField fs "cleanupTransaction" <;> rfl

/-- C3 witness: the base64 blob `"AAAA"` decodes to three zero bytes, and
an empty JSON object is rejected as a SwapResponse. -/
theorem process_swap_response_optional_witness :
    (decodeStage "AAAA" = .ok ⟨[0, 0, 0]⟩ ∧
      process_swap_response ⟨none, "AAAA", none⟩ = .ok ⟨none, ⟨[0, 0, 0]⟩, none⟩) ∧
    (lookupField [] "swapTransaction" = none ∧
      decodeSwapResponseJson (.obj []) = none) :=
  ⟨⟨rfl,
      process_swap_response_optional.1 ⟨none, "AAAA", none⟩ ⟨[0, 0, 0]⟩ rfl rfl rfl⟩,
    ⟨rfl, process_swap_response_optional.2 [] rfl⟩⟩

/-! ## Discriminator ordering (C2) -/

/-- A well-formed service error envelope. -/
def errEnvelope : JsonValue := .obj [("error", .str "slippage tolerance exceeded")]

/-- A well-formed success envelope for the quote operation. -/
def successQuoteEnvelope : JsonValue := .obj [("data", .arr [])]

/-- C2 (amended): the discriminator returns the service error on any
error envelope without consulting the success decoder, and quote, price
and swap (blocking and async) run it before operation-specific decoding;
route-map does not use the discriminator — it decodes the body directly
as an IndexedRouteMap, so an error envelope surfaces as a shape-decode
error there. -/
theorem discriminator_runs_first :
    (∀ (T : Type) (dec : JsonValue → Option T) (j : JsonValue) (msg : String),
      errorField j = some msg →
      maybe_jupiter_api_error dec j = .error (.service msg)) ∧
    (∀ (st : Nat) (j : JsonValue) (msg : String), errorField j = some msg →
      quote_handle ⟨st, some j⟩ = .err (.service msg) ∧
      async_quote_handle ⟨st, some j⟩ = .err (.service msg) ∧
      price_handle ⟨st, some j⟩ = .err (.service msg) ∧
      async_price_handle ⟨st, some j⟩ = .err (.service msg)) ∧
    (∀ (st : Nat) (j : JsonValue) (msg : String), errorForStatus st = false →
      errorField j = some msg →
      swap_handle ⟨st, some j⟩ = .err (.service msg) ∧
      async_swap_handle ⟨st, some j⟩ = .err (.service msg)) ∧
    (route_map_handle ⟨200, some errEnvelope⟩ = .err .shapeDecode ∧
      async_route_map_handle ⟨200, some errEnvelope⟩ = .err .shapeDecode) := by
  have hdisc : ∀ (T : Type) (dec : JsonValue → Option T) (j : JsonValue) (msg : String),
      errorField j = some msg →
      maybe_jupiter_api_error dec j = .error (.service msg) := by
    intro T dec j msg h
    unfold maybe_jupiter_api_error
    rw [h]
  refine ⟨hdisc, ?_, ?_, by decide, by decide⟩
  · intro st j msg h
    refine ⟨?_, ?_, ?_, ?_⟩ <;>
      simp only [quote_handle, async_quote_handle, price_handle, async_price_handle,
        hdisc _ _ j msg h]
  · intro st j msg hst h
    constructor <;>
      simp only [swap_handle, async_swap_handle, hst, Bool.false_eq_true, if_false,
        hdisc _ _ j msg h]

/-- C2 witness: the discriminator and the quote/swap pipelines classify a
concrete error envelope as a service error. -/
theorem discriminator_runs_first_witness :
    errorField errEnvelope = some "slippage tolerance exceeded" ∧
      maybe_jupiter_api_error decodeSwapResponseJson errEnvelope
        = .error (.service "slippage tolerance exceeded") ∧
      quote_handle ⟨200, some errEnvelope⟩
        = .err (.service "slippage tolerance exceeded") ∧
      swap_handle ⟨200, some errEnvelope⟩
        = .err (.service "slippage tolerance exceeded") :=
  ⟨rfl,
    discriminator_runs_first.1 SwapResponse decodeSwapResponseJson errEnvelope _ rfl,
    (discriminator_runs_first.2.1 200 errEnvelope _ rfl).1,
    (discriminator_runs_first.2.2.1 200 errEnvelope _ rfl rfl).1⟩

/-- C2 counterexample: the route-map operation hands an error envelope to
the IndexedRouteMap deserializer, producing a shape-decode error — not
the ServiceError the claim requires for every operation. -/
theorem route_map_skips_discriminator_cex :
    route_map_handle ⟨200, some errEnvelope⟩ = .err .shapeDecode ∧
      (Outcome.err .shapeDecode : Outcome RouteMap)
        ≠ .err (.service "slippage tolerance exceeded") := by
  decide

/-! ## Blocking / non-blocking equivalence and client sharing (C5) -/

/-- C5 (amended): every operation builds the same URL/request and applies
the same response handling in its blocking and non-blocking form; the
blocking calls use the shared blocking client and the async swap, quote
and price calls the shared async client, but `async_route_map` constructs
a fresh client per call. -/
theorem blocking_async_equivalence :
    (∀ api d, route_map_url api d = async_route_map_url api d) ∧
    (∀ api i o n dr sl f, quote_url api i o n dr sl f = async_quote_url api i o n dr sl f) ∧
    (∀ api i o ui, price_url api i o ui = async_price_url api i o ui) ∧
    (∀ api rt u cfg, swap_input api rt u cfg = async_swap_input api rt u cfg) ∧
    (∀ r, swap_handle r = async_swap_handle r) ∧
    (∀ r, quote_handle r = async_quote_handle r) ∧
    (∀ r, price_handle r = async_price_handle r) ∧
    (∀ r, route_map_handle r = async_route_map_handle r) ∧
    (swap_client = .sharedBlocking ∧ quote_client = .sharedBlocking ∧
      price_client = .sharedBlocking ∧ route_map_client = .sharedBlocking) ∧
    (async_swap_client = .sharedAsync ∧ async_quote_client = .sharedAsync ∧
      async_price_client = .sharedAsync) ∧
    async_route_map_client = .freshPerCall := by
  exact ⟨fun _ _ => rfl, fun _ _ _ _ _ _ _ => rfl, fun _ _ _ _ => rfl,
    fun _ _ _ _ => rfl, fun _ => rfl, fun _ => rfl, fun _ => rfl, fun _ => rfl,
    ⟨rfl, rfl, rfl, rfl⟩, ⟨rfl, rfl, rfl⟩, rfl⟩

/-- C5 counterexample: `async_route_map` evaluates `reqwest::get`, a
client constructed fresh for that call, unlike every other async
operation's shared client. -/
theorem async_route_map_client_cex :
    async_route_map_client = .freshPerCall ∧
      ClientSource.freshPerCall ≠ ClientSource.sharedAsync ∧
      async_quote_client = ClientSource.sharedAsync := by
  decide

/-! ## HTTP status surfacing (C6) -/

/-- C6 (amended): the swap calls surface a 4xx/5xx status as a transport
error before looking at the body; the quote, price and route-map
handlers never consult the status at all. -/
theorem status_surfacing :
    (∀ r : HttpResp, errorForStatus r.status = true →
      swap_handle r = .err .transport ∧ async_swap_handle r = .err .transport) ∧
    (∀ (st st' : Nat) (b : Option JsonValue),
      quote_handle ⟨st, b⟩ = quote_handle ⟨st', b⟩ ∧
      async_quote_handle ⟨st, b⟩ = async_quote_handle ⟨st', b⟩ ∧
      price_handle ⟨st, b⟩ = price_handle ⟨st', b⟩ ∧
      async_price_handle ⟨st, b⟩ = async_price_handle ⟨st', b⟩ ∧
      route_map_handle ⟨st, b⟩ = route_map_handle ⟨st', b⟩ ∧
      async_route_map_handle ⟨st, b⟩ = async_route_map_handle ⟨st', b⟩) := by
  constructor
  · intro r h
    constructor <;> simp [swap_handle, async_swap_handle, h]
  · intro st st' b
    exact ⟨rfl, rfl, rfl, rfl, rfl, rfl⟩

/-- C6 witness: a 500 response is rejected by the swap pipeline before
any body decoding. -/
theorem status_surfacing_witness :
    errorForStatus 500 = true ∧ swap_handle ⟨500, none⟩ = .err .transport :=
  ⟨rfl, (status_surfacing.1 ⟨500, none⟩ rfl).1⟩

/-- C6 counterexample: a 500 status with a well-formed success body is
decoded successfully by the quote pipeline — the non-2xx status is not
surfaced as a TransportError, nor surfaced at all. -/
theorem quote_ignores_status_cex :
    quote_handle ⟨500, some successQuoteEnvelope⟩ = .ok ⟨[]⟩ ∧
      (Outcome.ok ⟨[]⟩ : Outcome (JupResponse (List Quote))) ≠ .err .transport ∧
      errorForStatus 500 = true := by
  refine ⟨rfl, ?_, rfl⟩
  intro h
  exact Outcome.noConfusion h

/-! ## Query-fragment analysis (C7, C8) -/

theorem data_append (a b : String) : (a ++ b).data = a.data ++ b.data := rfl

theorem data_mk (l : List Char) : (String.mk l).data = l := rfl

/-- Split a character sequence at every `'&'` (the query-fragment
separator). -/
def splitOnAmp : List Char → List (List Char)
  | [] => [[]]
  | c :: rest =>
    if c = '&' then [] :: splitOnAmp rest
    else (splitOnAmp rest).modifyHead (c :: ·)

theorem splitOnAmp_ne_nil (l : List Char) : splitOnAmp l ≠ [] := by
  induction l with
  | nil => simp [splitOnAmp]
  | cons c rest ih =>
    by_cases h : c = '&'
    · simp [splitOnAmp, h]
    · simp only [splitOnAmp, if_neg h]
      cases hs : splitOnAmp rest with
      | nil => exact absurd hs ih
      | cons a t => simp [List.modifyHead]

theorem splitOnAmp_cons_ne {c : Char} (hc : c ≠ '&') (l : List Char) :
    splitOnAmp (c :: l) = (splitOnAmp l).modifyHead (c :: ·) := by
  simp [splitOnAmp, hc]

theorem splitOnAmp_seg (xs rest : List Char) (h : '&' ∉ xs) :
    splitOnAmp (xs ++ '&' :: rest) = xs :: splitOnAmp rest := by
  induction xs with
  | nil => simp [splitOnAmp]
  | cons c xs' ih =>
    have hc : c ≠ '&' := fun hc => h (hc ▸ List.mem_cons_self c xs')
    have hxs' : '&' ∉ xs' := fun hm => h (List.mem_cons_of_mem c hm)
    rw [List.cons_append, splitOnAmp_cons_ne hc, ih hxs']
    rfl

theorem splitOnAmp_single (xs : List Char) (h : '&' ∉ xs) : splitOnAmp xs = [xs] := by
  induction xs with
  | nil => rfl
  | cons c xs' ih =>
    have hc : c ≠ '&' := fun hc => h (hc ▸ List.mem_cons_self c xs')
    have hxs' : '&' ∉ xs' := fun hm => h (List.mem_cons_of_mem c hm)
    rw [splitOnAmp_cons_ne hc, ih hxs']
    rfl

/-! Character-class facts about the rendered pieces. -/

theorem encodeDigit58_mem : ∀ d, d < 58 → encodeDigit58 d ∈ ALPHABET := by decide

theorem pubkeyChars_mem (p : Pubkey) : ∀ c ∈ pubkeyChars p, c ∈ ALPHABET := by
  intro c hc
  unfold pubkeyChars at hc
  by_cases h0 : p.val = 0
  · rw [if_pos h0] at hc
    simp only [List.mem_singleton] at hc
    subst hc
    decide
  · rw [if_neg h0] at hc
    rw [List.mem_reverse, List.mem_map] at hc
    obtain ⟨d, hd, rfl⟩ := hc
    exact encodeDigit58_mem d (natDigits_lt (by norm_num) d hd)

theorem digitChar_mem : ∀ d, d < 10 → DIGITS.getD d '0' ∈ DIGITS := by decide

theorem natChars_mem (n : Nat) : ∀ c ∈ natChars n, c ∈ DIGITS := by
  intro c hc
  unfold natChars at hc
  by_cases h0 : n = 0
  · rw [if_pos h0] at hc
    simp only [List.mem_singleton] at hc
    subst hc
    decide
  · rw [if_neg h0] at hc
    rw [List.mem_reverse, List.mem_map] at hc
    obtain ⟨d, hd, rfl⟩ := hc
    exact digitChar_mem d (natDigits_lt (by norm_num) d hd)

theorem amp_not_mem_pubkeyChars (p : Pubkey) : '&' ∉ pubkeyChars p :=
  fun h => absurd (pubkeyChars_mem p '&' h) (by decide)

theorem eq_not_mem_pubkeyChars (p : Pubkey) : '=' ∉ pubkeyChars p :=
  fun h => absurd (pubkeyChars_mem p '=' h) (by decide)

theorem amp_not_mem_natChars (n : Nat) : '&' ∉ natChars n :=
  fun h => absurd (natChars_mem n '&' h) (by decide)

theorem amp_not_mem_append {xs ys : List Char} (hx : '&' ∉ xs) (hy : '&' ∉ ys) :
    '&' ∉ xs ++ ys :=
  fun h => (List.mem_append.mp h).elim hx hy

theorem amp_not_mem_boolStr (b : Bool) : '&' ∉ (boolStr b).data := by
  cases b <;> decide

/-! ## C7: the quote URL has exactly one slippage fragment -/

def slippageFragCount (s : String) : Nat :=
  ((splitOnAmp s.data).filter (fun f => "slippage".data.isPrefixOf f)).length

theorem quote_frags (api : API) (i o : Pubkey) (n : Nat) (d : Bool)
    (sl : Slippage) (f : FeeBps) :
    splitOnAmp (quote_str api i o n d sl f).data =
      ("https://quote-api.jup.ag/v1/quote?inputMint=".data ++ pubkeyChars i) ::
      ("outputMint=".data ++ pubkeyChars o) ::
      ("amount=".data ++ natChars n) ::
      ("onlyDirectRoutes=".data ++ (boolStr d).data) ::
      splitOnAmp ((sl.value).data ++ (f.value).data) := by
  have hdata : (quote_str api i o n d sl f).data =
      ("https://quote-api.jup.ag/v1/quote?inputMint=".data ++ pubkeyChars i) ++
      '&' :: (("outputMint=".data ++ pubkeyChars o) ++
      '&' :: (("amount=".data ++ natChars n) ++
      '&' :: (("onlyDirectRoutes=".data ++ (boolStr d).data) ++
      '&' :: ((sl.value).data ++ (f.value).data)))) := by
    simp only [quote_str, data_append, pubkeyToString, natStr, data_mk]
    simp [List.append_assoc]
  rw [hdata,
    splitOnAmp_seg _ _ (amp_not_mem_append (by decide) (amp_not_mem_pubkeyChars i)),
    splitOnAmp_seg _ _ (amp_not_mem_append (by decide) (amp_not_mem_pubkeyChars o)),
    splitOnAmp_seg _ _ (amp_not_mem_append (by decide) (amp_not_mem_natChars n)),
    splitOnAmp_seg _ _ (amp_not_mem_append (by decide) (amp_not_mem_boolStr d))]

theorem slip_isPrefixOf_head {c : Char} (hc : c ≠ 's') (l : List Char) :
    "slippage".data.isPrefixOf (c :: l) = false := by
  rw [show "slippage".data = 's' :: "lippage".data from rfl]
  show ('s' == c && "lippage".data.isPrefixOf l) = false
  rw [beq_eq_false_iff_ne.mpr (Ne.symm hc), Bool.false_and]

theorem isPrefixOf_append_self (l t : List Char) : l.isPrefixOf (l ++ t) = true := by
  induction l with
  | nil => simp [List.isPrefixOf]
  | cons c l' ih =>
    rw [List.cons_append]
    show (c == c && l'.isPrefixOf (l' ++ t)) = true
    rw [beq_self_eq_true, Bool.true_and, ih]

theorem slip_value_isPrefixOf (sl : Slippage) :
    "slippage".data.isPrefixOf (sl.value).data = true := by
  cases sl with
  | percent m =>
    show "slippage".data.isPrefixOf ("slippage=".data ++ natChars m) = true
    rw [show "slippage=".data = "slippage".data ++ ['='] from rfl, List.append_assoc]
    exact isPrefixOf_append_self _ _
  | bps m =>
    show "slippage".data.isPrefixOf ("slippageBps=".data ++ natChars m) = true
    rw [show "slippageBps=".data = "slippage".data ++ "Bps=".data from rfl,
      List.append_assoc]
    exact isPrefixOf_append_self _ _

theorem amp_not_mem_slip_value (sl : Slippage) : '&' ∉ (sl.value).data := by
  cases sl with
  | percent m =>
    exact amp_not_mem_append (show '&' ∉ "slippage=".data by decide) (amp_not_mem_natChars m)
  | bps m =>
    exact amp_not_mem_append (show '&' ∉ "slippageBps=".data by decide) (amp_not_mem_natChars m)

/-- C7: `quote_str` is a deterministic function of its inputs and its
output always contains exactly one slippage-related query fragment. -/
theorem quote_str_deterministic_one_slippage :
    (∀ (api api' : API) (i i' o o' : Pubkey) (n n' : Nat) (d d' : Bool)
      (sl sl' : Slippage) (f f' : FeeBps),
      api = api' → i = i' → o = o' → n = n' → d = d' → sl = sl' → f = f' →
      quote_str api i o n d sl f = quote_str api' i' o' n' d' sl' f') ∧
    (∀ (api : API) (i o : Pubkey) (n : Nat) (d : Bool) (sl : Slippage) (f : FeeBps),
      slippageFragCount (quote_str api i o n d sl f) = 1) := by
  constructor
  · intro api api' i i' o o' n n' d d' sl sl' f f' h1 h2 h3 h4 h5 h6 h7
    subst h1; subst h2; subst h3; subst h4; subst h5; subst h6; subst h7
    rfl
  · intro api i o n d sl f
    unfold slippageFragCount
    rw [quote_frags]
    have e1 : "slippage".data.isPrefixOf
        ("https://quote-api.jup.ag/v1/quote?inputMint=".data ++ pubkeyChars i) = false := by
      rw [show "https://quote-api.jup.ag/v1/quote?inputMint=".data ++ pubkeyChars i
        = 'h' :: ("ttps://quote-api.jup.ag/v1/quote?inputMint=".data ++ pubkeyChars i)
        from rfl]
      exact slip_isPrefixOf_head (by decide) _
    have e2 : "slippage".data.isPrefixOf
        ("outputMint=".data ++ pubkeyChars o) = false := by
      rw [show "outputMint=".data ++ pubkeyChars o
        = 'o' :: ("utputMint=".data ++ pubkeyChars o) from rfl]
      exact slip_isPrefixOf_head (by decide) _
    have e3 : "slippage".data.isPrefixOf ("amount=".data ++ natChars n) = false := by
      rw [show "amount=".data ++ natChars n = 'a' :: ("mount=".data ++ natChars n)
        from rfl]
      exact slip_isPrefixOf_head (by decide) _
    have e4 : "slippage".data.isPrefixOf
        ("onlyDirectRoutes=".data ++ (boolStr d).data) = false := by
      rw [show "onlyDirectRoutes=".data ++ (boolStr d).data
        = 'o' :: ("nlyDirectRoutes=".data ++ (boolStr d).data) from rfl]
      exact slip_isPrefixOf_head (by decide) _
    have etail : ((splitOnAmp ((sl.value).data ++ (f.value).data)).filter
        (fun fr => "slippage".data.isPrefixOf fr)).length = 1 := by
      cases hf : f.bps with
      | none =>
        have hval : (f.value).data = [] := by
          unfold FeeBps.value
          rw [hf]
        rw [hval, List.append_nil, splitOnAmp_single _ (amp_not_mem_slip_value sl)]
        simp only [List.filter_cons, slip_value_isPrefixOf sl, if_true, List.filter_nil,
          List.length_singleton]
      | some m =>
        have hval : (f.value).data = '&' :: ("feeBps=".data ++ natChars m) := by
          unfold FeeBps.value
          rw [hf]
          rfl
        rw [hval, splitOnAmp_seg _ _ (amp_not_mem_slip_value sl),
          splitOnAmp_single _ (amp_not_mem_append (by decide) (amp_not_mem_natChars m))]
        have e5 : "slippage".data.isPrefixOf ("feeBps=".data ++ natChars m) = false := by
          rw [show "feeBps=".data ++ natChars m = 'f' :: ("eeBps=".data ++ natChars m)
            from rfl]
          exact slip_isPrefixOf_head (by decide) _
        simp only [List.filter_cons, slip_value_isPrefixOf sl, e5, if_true,
          Bool.false_eq_true, if_false, List.filter_nil, List.length_singleton]
    simp only [List.filter_cons, e1, e2, e3, e4, Bool.false_eq_true, if_false]
    exact etail

/-- C7 witness: a concrete quote URL with basis-points slippage and a fee
has exactly one slippage fragment. -/
theorem quote_str_deterministic_one_slippage_witness :
    quote_str API.v1 (mkPk 5) (mkPk 7) 100 true (.bps 40) ⟨some 3⟩
      = quote_str API.v1 (mkPk 5) (mkPk 7) 100 true (.bps 40) ⟨some 3⟩ ∧
    slippageFragCount (quote_str API.v1 (mkPk 5) (mkPk 7) 100 true (.bps 40) ⟨some 3⟩) = 1 :=
  ⟨quote_str_deterministic_one_slippage.1 API.v1 API.v1 (mkPk 5) (mkPk 5) (mkPk 7) (mkPk 7)
      100 100 true true (.bps 40) (.bps 40) ⟨some 3⟩ ⟨some 3⟩ rfl rfl rfl rfl rfl rfl rfl,
    quote_str_deterministic_one_slippage.2 API.v1 (mkPk 5) (mkPk 7) 100 true (.bps 40) ⟨some 3⟩⟩

/-! ## C8: the price URL's amount fragment -/

theorem prefix_append_split {α : Type} {p x y : List α} (h : p <+: x ++ y) :
    p <+: x ∨ ∃ p₂, p = x ++ p₂ ∧ p₂ <+: y := by
  induction x generalizing p with
  | nil => exact Or.inr ⟨p, by simp, by simpa using h⟩
  | cons a x' ih =>
    cases p with
    | nil => exact Or.inl List.nil_prefix
    | cons b p' =>
      rw [List.cons_append] at h
      obtain ⟨heq, h'⟩ := List.cons_prefix_cons.mp h
      subst heq
      rcases ih h' with h1 | ⟨p₂, rfl, h2⟩
      · exact Or.inl (List.cons_prefix_cons.mpr ⟨rfl, h1⟩)
      · exact Or.inr ⟨p₂, by simp, h2⟩

theorem infix_append_split {α : Type} {p x y : List α} (h : p <:+: x ++ y) :
    p <:+: x ∨ p <:+: y ∨
      ∃ p₁ p₂, p₁ ++ p₂ = p ∧ p₁ ≠ [] ∧ p₂ ≠ [] ∧ p₁ <:+ x ∧ p₂ <+: y := by
  induction x generalizing p with
  | nil => exact Or.inr (Or.inl (by simpa using h))
  | cons a x' ih =>
    rw [List.cons_append] at h
    rcases List.infix_cons_iff.mp h with hp | h'
    · cases p with
      | nil => exact Or.inl List.nil_infix
      | cons b p' =>
        obtain ⟨heq, hp'⟩ := List.cons_prefix_cons.mp hp
        subst heq
        rcases prefix_append_split hp' with h1 | ⟨p₂, rfl, h2⟩
        · exact Or.inl (List.IsPrefix.isInfix (List.cons_prefix_cons.mpr ⟨rfl, h1⟩))
        · by_cases hnil : p₂ = []
          · subst hnil
            exact Or.inl (by simp)
          · exact Or.inr (Or.inr ⟨b :: x', p₂, by simp, by simp, hnil,
              List.suffix_refl _, h2⟩)
    · rcases ih h' with h1 | h2 | ⟨p₁, p₂, hsp, h1n, h2n, hsuf, hpre⟩
      · exact Or.inl (List.infix_cons h1)
      · exact Or.inr (Or.inl h2)
      · exact Or.inr (Or.inr ⟨p₁, p₂, hsp, h1n, h2n,
          hsuf.trans (List.suffix_cons a x'), hpre⟩)

theorem prefix_head? {α : Type} {l₁ l₂ : List α} (h : l₁ <+: l₂) (hne : l₁ ≠ []) :
    l₁.head? = l₂.head? := by
  obtain ⟨t, rfl⟩ := h
  cases l₁ with
  | nil => exact absurd rfl hne
  | cons a l' => rfl

theorem pat_not_infix_alphabet {pk : List Char} (hpk : ∀ c ∈ pk, c ∈ ALPHABET)
    (h : "amount=".data <:+: pk) : False := by
  have hmem : '=' ∈ pk := h.sublist.subset (by decide)
  exact absurd (hpk '=' hmem) (by decide)

theorem price_str_none_data (api : API) (i o : Pubkey) :
    (price_str api i o none).data =
      "https://quote-api.jup.ag/v1/price?id=".data ++
        (pubkeyChars i ++ ("&vsToken=".data ++ pubkeyChars o)) := by
  simp only [price_str, data_append, pubkeyToString, data_mk]
  simp [List.append_assoc]

theorem price_str_some_data (api : API) (i o : Pubkey) (v : F64) :
    (price_str api i o (some v)).data =
      ("https://quote-api.jup.ag/v1/price?id=".data ++ pubkeyChars i) ++
        '&' :: (("vsToken=".data ++ pubkeyChars o) ++
        '&' :: ("amount=".data ++ v.chars)) := by
  simp only [price_str, data_append, pubkeyToString, data_mk, F64.render]
  simp [List.append_assoc]

def amountFragCount (s : String) (v : F64) : Nat :=
  ((splitOnAmp s.data).filter (fun fr => fr == "amount=".data ++ v.chars)).length

/-- C8: with no uiAmount the price URL never contains the substring
`amount=`; with `uiAmount = some v` it contains exactly one
`amount={v}` query fragment. -/
theorem price_str_amount_fragment :
    (∀ (api : API) (i o : Pubkey), ¬ ("amount=".data <:+: (price_str api i o none).data)) ∧
    (∀ (api : API) (i o : Pubkey) (v : F64), v.wf →
      amountFragCount (price_str api i o (some v)) v = 1) := by
  constructor
  · intro api i o h
    rw [price_str_none_data] at h
    rcases infix_append_split h with h1 | h2 | ⟨p₁, p₂, hsp, h1n, h2n, hsuf, hpre⟩
    · exact absurd h1 (by decide)
    · rcases infix_append_split h2 with h3 | h4 | ⟨p₁, p₂, hsp, h1n, h2n, hsuf, hpre⟩
      · exact pat_not_infix_alphabet (pubkeyChars_mem i) h3
      · rcases infix_append_split h4 with h5 | h6 | ⟨p₁, p₂, hsp, h1n, h2n, hsuf, hpre⟩
        · exact absurd h5 (by decide)
        · exact pat_not_infix_alphabet (pubkeyChars_mem o) h6
        · have hp2 : p₂ <:+ "amount=".data := ⟨p₁, hsp⟩
          have hmem : '=' ∈ p₂ := by
            have hall : ∀ x ∈ "amount=".data.tails, x = [] ∨ '=' ∈ x := by decide
            rcases hall p₂ ((List.mem_tails _ _).mpr hp2) with rfl | hx
            · exact absurd rfl h2n
            · exact hx
          have hin : '=' ∈ pubkeyChars o := hpre.sublist.subset hmem
          exact absurd (pubkeyChars_mem o '=' hin) (by decide)
      · have hp2 : p₂ <:+ "amount=".data := ⟨p₁, hsp⟩
        have hhead : p₂.head? = some '&' := by
          rw [prefix_head? hpre h2n]
          rfl
        have hall : ∀ x ∈ "amount=".data.tails, x.head? ≠ some '&' := by decide
        exact absurd hhead (hall p₂ ((List.mem_tails _ _).mpr hp2))
    · have hlast : p₁.getLast? = some '=' := by
        obtain ⟨t, ht⟩ := hsuf
        have hgl := List.getLast?_append_of_ne_nil t h1n
        rw [ht] at hgl
        rw [← hgl]
        decide
      have hp1 : p₁ <+: "amount=".data := ⟨p₂, hsp⟩
      have hall : ∀ x ∈ "amount=".data.inits,
          x = "amount=".data ∨ x.getLast? ≠ some '=' := by decide
      rcases hall p₁ ((List.mem_inits _ _).mpr hp1) with rfl | hx
      · have hnil : p₂ = [] := by
          have hl := congrArg List.length hsp
          simpa using hl
        exact absurd hnil h2n
      · exact absurd hlast hx
  · intro api i o v hv
    have hvamp : '&' ∉ v.chars := fun hc => absurd (hv.2 '&' hc) (by decide)
    unfold amountFragCount
    rw [price_str_some_data,
      splitOnAmp_seg _ _ (amp_not_mem_append (by decide) (amp_not_mem_pubkeyChars i)),
      splitOnAmp_seg _ _ (amp_not_mem_append (by decide) (amp_not_mem_pubkeyChars o)),
      splitOnAmp_single _ (amp_not_mem_append (by decide) hvamp)]
    have q1 : (("https://quote-api.jup.ag/v1/price?id=".data ++ pubkeyChars i)
        == "amount=".data ++ v.chars) = false := by
      apply beq_eq_false_iff_ne.mpr
      intro hcontra
      have hh := congrArg List.head? hcontra
      rw [show ("https://quote-api.jup.ag/v1/price?id=".data ++ pubkeyChars i).head?
          = some 'h' from rfl,
        show ("amount=".data ++ v.chars).head? = some 'a' from rfl] at hh
      exact absurd hh (by decide)
    have q2 : (("vsToken=".data ++ pubkeyChars o)
        == "amount=".data ++ v.chars) = false := by
      apply beq_eq_false_iff_ne.mpr
      intro hcontra
      have hh := congrArg List.head? hcontra
      rw [show ("vsToken=".data ++ pubkeyChars o).head? = some 'v' from rfl,
        show ("amount=".data ++ v.chars).head? = some 'a' from rfl] at hh
      exact absurd hh (by decide)
    have q3 : (("amount=".data ++ v.chars) == "amount=".data ++ v.chars) = true :=
      beq_self_eq_true _
    simp only [List.filter_cons, q1, q2, q3, Bool.false_eq_true, if_false, if_true,
      List.filter_nil, List.length_singleton]

/-- C8 witness: concrete price URLs without and with a uiAmount of 3.5. -/
theorem price_str_amount_fragment_witness :
    (F64.wf ⟨"3.5".data⟩ ∧
      ¬ ("amount=".data <:+: (price_str API.v1 (mkPk 5) (mkPk 7) none).data)) ∧
    amountFragCount (price_str API.v1 (mkPk 5) (mkPk 7) (some ⟨"3.5".data⟩))
      ⟨"3.5".data⟩ = 1 :=
  ⟨⟨by decide, price_str_amount_fragment.1 API.v1 (mkPk 5) (mkPk 7)⟩,
    price_str_amount_fragment.2 API.v1 (mkPk 5) (mkPk 7) ⟨"3.5".data⟩ (by decide)⟩

end Juper
